import Mathlib

/-!
Verification of the geomgraph core of the `geo` relate engine.

The Rust sources under `src/geo/src/algorithm/relate/geomgraph/` are shallowly
embedded below.  Coordinates are modelled as exact rationals (the claims under
study concern control flow and exact bit-equality branches, not floating-point
rounding).  Rust panics are modelled with `Except String`; the `Rc<RefCell<Edge>>`
sharing used by `SegmentIntersector` is modelled as an arena (`List Edge`)
addressed by indices, so pointer equality of the `RefCell`s becomes index
equality.  Collaborator items that live outside the provided sources
(`RobustLineIntersector::compute_edge_distance`, `EdgeIntersection`'s ordering,
`GeometryGraph::determine_boundary`, `IntersectionMatrix`, `LineIntersection`,
the robust kernel `orient2d`) are modelled from the specification and are marked
as such in their doc comments.
-/

namespace Geo

instance {e a : Type} [DecidableEq e] [DecidableEq a] : DecidableEq (Except e a) :=
  fun x y =>
    match x, y with
    | .ok u, .ok v => decidable_of_iff (u = v) (by simp)
    | .error u, .error v => decidable_of_iff (u = v) (by simp)
    | .ok _, .error _ => isFalse (by simp)
    | .error _, .ok _ => isFalse (by simp)

/-- A 2-D point; `Coordinate<F>` in the source, with exact rational scalars. -/
structure Coord where
  x : ℚ
  y : ℚ
deriving DecidableEq

/-- Componentwise subtraction of coordinates (the `Sub` impl used for `c1 - c0`). -/
def Coord.sub (a b : Coord) : Coord := ⟨a.x - b.x, a.y - b.y⟩

/-- `CoordPos`: the position of a coordinate relative to one geometry. -/
inductive CoordPos where
  | Inside
  | OnBoundary
  | Outside
deriving DecidableEq

/-- `Direction`: the three positions an edge's label records. -/
inductive Direction where
  | On
  | Left
  | Right
deriving DecidableEq

/-- `TopologyPosition` from `topology_position.rs`: the labelling of a graph
component's relationship to a single geometry. -/
inductive TopologyPosition where
  | Area (onP left right : Option CoordPos)
  | LineOrPoint (onP : Option CoordPos)
deriving DecidableEq

/-- `TopologyPosition::get`.  The Rust function panics when a side position is
requested of a `LineOrPoint`; the panic is modelled as `Except.error`. -/
def TopologyPosition.get : TopologyPosition → Direction → Except String (Option CoordPos)
  | .Area _ left _, .Left => .ok left
  | .Area _ _ right, .Right => .ok right
  | .Area o _ _, .On => .ok o
  | .LineOrPoint o, .On => .ok o
  | .LineOrPoint _, _ => .error "LineOrPoint only has a position for Direction::On"

/-- The `Direction::On` read of `TopologyPosition::get`, which is total on both
variants (see `TopologyPosition.get_on_eq`). -/
def TopologyPosition.getOn : TopologyPosition → Option CoordPos
  | .Area o _ _ => o
  | .LineOrPoint o => o

theorem TopologyPosition.get_on_eq (t : TopologyPosition) : t.get .On = .ok t.getOn := by
  cases t <;> rfl

/-- `TopologyPosition::is_area`. -/
def TopologyPosition.is_area : TopologyPosition → Bool
  | .Area _ _ _ => true
  | .LineOrPoint _ => false

/-- `TopologyPosition::is_line`. -/
def TopologyPosition.is_line : TopologyPosition → Bool
  | .Area _ _ _ => false
  | .LineOrPoint _ => true

/-- `TopologyPosition::set_position`.  The Rust function panics when a side
position is assigned on a `LineOrPoint`; the panic is modelled as `Except.error`. -/
def TopologyPosition.set_position : TopologyPosition → Direction → CoordPos → Except String TopologyPosition
  | .LineOrPoint _, .On, p => .ok (.LineOrPoint (some p))
  | .LineOrPoint _, _, _ => .error "invalid assignment dimensions for Self::Line"
  | .Area _ l r, .On, p => .ok (.Area (some p) l r)
  | .Area o _ r, .Left, p => .ok (.Area o (some p) r)
  | .Area o l _, .Right, p => .ok (.Area o l (some p))

/-- `TopologyPosition::set_on_position`, total on both variants. -/
def TopologyPosition.set_on_position : TopologyPosition → CoordPos → TopologyPosition
  | .LineOrPoint _, p => .LineOrPoint (some p)
  | .Area _ l r, p => .Area (some p) l r

theorem TopologyPosition.set_position_on_eq (t : TopologyPosition) (p : CoordPos) :
    t.set_position .On p = .ok (t.set_on_position p) := by
  cases t <;> rfl

/-- `Label` from `label.rs`: one `TopologyPosition` per input geometry. -/
structure Label where
  geometry_topologies : Fin 2 → TopologyPosition

instance : DecidableEq Label := fun a b =>
  decidable_of_iff (a.geometry_topologies = b.geometry_topologies)
    (by cases a; cases b; simp)

/-- Pointwise update of a two-geometry topology assignment (a plain `ite`, so
it evaluates on concrete indices). -/
def updateTopology (f : Fin 2 → TopologyPosition) (i : Fin 2)
    (t : TopologyPosition) : Fin 2 → TopologyPosition :=
  fun j => if j = i then t else f j

theorem updateTopology_same (f : Fin 2 → TopologyPosition) (i : Fin 2)
    (t : TopologyPosition) : updateTopology f i t i = t := by
  simp [updateTopology]

theorem updateTopology_noteq (f : Fin 2 → TopologyPosition) (i : Fin 2)
    (t : TopologyPosition) (j : Fin 2) (h : j ≠ i) : updateTopology f i t j = f j := by
  simp [updateTopology, h]

/-- `Label::empty_line_or_point`. -/
def Label.empty_line_or_point : Label := ⟨fun _ => .LineOrPoint none⟩

/-- `Label::empty_area`. -/
def Label.empty_area : Label := ⟨fun _ => .Area none none none⟩

/-- `Label::position`. -/
def Label.position (l : Label) (geom_index : Fin 2) (direction : Direction) :
    Except String (Option CoordPos) :=
  (l.geometry_topologies geom_index).get direction

/-- `Label::on_position` (always a successful read, see `Label.position_on_eq`). -/
def Label.on_position (l : Label) (geom_index : Fin 2) : Option CoordPos :=
  (l.geometry_topologies geom_index).getOn

theorem Label.position_on_eq (l : Label) (i : Fin 2) :
    l.position i .On = .ok (l.on_position i) :=
  TopologyPosition.get_on_eq _

/-- `Label::set_position`. -/
def Label.set_position (l : Label) (geom_index : Fin 2) (direction : Direction)
    (position : CoordPos) : Except String Label :=
  ((l.geometry_topologies geom_index).set_position direction position).map
    fun t => ⟨updateTopology l.geometry_topologies geom_index t⟩

/-- `Label::set_on_position` (total: assigning `On` never panics). -/
def Label.set_on_position (l : Label) (geom_index : Fin 2) (position : CoordPos) : Label :=
  ⟨updateTopology l.geometry_topologies geom_index
    ((l.geometry_topologies geom_index).set_on_position position)⟩

theorem Label.set_position_onpos_eq (l : Label) (i : Fin 2) (p : CoordPos) :
    l.set_position i .On p = .ok (l.set_on_position i p) := by
  unfold Label.set_position Label.set_on_position
  rw [TopologyPosition.set_position_on_eq]
  rfl

/-- `Label::is_area`. -/
def Label.is_area (l : Label) : Bool :=
  (l.geometry_topologies 0).is_area || (l.geometry_topologies 1).is_area

/-- `Label::is_line`. -/
def Label.is_line (l : Label) (geom_index : Fin 2) : Bool :=
  (l.geometry_topologies geom_index).is_line

/-- C8: on a `LineOrPoint` topology position, reading or assigning a `Left` or
`Right` position is a fatal programmer error (a panic, modelled as
`Except.error` with the panic's diagnostic), while `get(On)` totally returns the
stored optional position on every variant. -/
theorem topology_position_side_access_panics_on_line :
    ∀ (o left right : Option CoordPos) (p : CoordPos),
      (TopologyPosition.LineOrPoint o).get .Left
          = .error "LineOrPoint only has a position for Direction::On"
      ∧ (TopologyPosition.LineOrPoint o).get .Right
          = .error "LineOrPoint only has a position for Direction::On"
      ∧ (TopologyPosition.LineOrPoint o).set_position .Left p
          = .error "invalid assignment dimensions for Self::Line"
      ∧ (TopologyPosition.LineOrPoint o).set_position .Right p
          = .error "invalid assignment dimensions for Self::Line"
      ∧ (TopologyPosition.LineOrPoint o).get .On = .ok o
      ∧ (TopologyPosition.Area o left right).get .On = .ok o :=
  fun _ _ _ _ => ⟨rfl, rfl, rfl, rfl, rfl, rfl⟩

/-! ## Quadrants and the robust angular comparator (`quadrant.rs`, `edge_end.rs`) -/

/-- `Quadrant` from `quadrant.rs`.  The declaration order `NE, NW, SW, SE` is the
derived Rust `PartialOrd` order (counterclockwise from the +x axis). -/
inductive Quadrant where
  | NE
  | NW
  | SW
  | SE
deriving DecidableEq

/-- The discriminant of a `Quadrant`, realising the derived Rust order. -/
def Quadrant.toNat : Quadrant → ℕ
  | .NE => 0
  | .NW => 1
  | .SW => 2
  | .SE => 3

/-- `Quadrant::new`: assigned by the signs of `dx`, `dy`; the zero vector has no
quadrant. -/
def Quadrant.new (dx dy : ℚ) : Option Quadrant :=
  if dx = 0 ∧ dy = 0 then none
  else if 0 ≤ dx then
    if 0 ≤ dy then some .NE else some .SE
  else
    if 0 ≤ dy then some .NW else some .SW

/-- The three possible answers of the orientation predicate. -/
inductive Orientation where
  | Clockwise
  | CounterClockwise
  | Collinear
deriving DecidableEq

/-- Modelled from the spec: `orient2d(p, q, r)` is the sign of the 2×2 determinant
`(q − p) × (r − p)` (§4.A; the robust kernel is not under `src/`.  Over exact
rationals the plain determinant is already exact). -/
def orient2d (p q r : Coord) : Orientation :=
  let det := (q.x - p.x) * (r.y - p.y) - (q.y - p.y) * (r.x - p.x)
  if 0 < det then .CounterClockwise
  else if det < 0 then .Clockwise
  else .Collinear

/-- `EdgeEndKey` from `edge_end.rs`. -/
structure EdgeEndKey where
  coord_0 : Coord
  coord_1 : Coord
  delta : Coord
  quadrant : Option Quadrant
deriving DecidableEq

/-- `EdgeEnd` from `edge_end.rs`. -/
structure EdgeEnd where
  label : Label
  key : EdgeEndKey
deriving DecidableEq

/-- `EdgeEnd::new`: the delta is `coord_1 - coord_0` and the quadrant is computed
from it (no validity check is made: identical endpoints simply give an absent
quadrant). -/
def EdgeEnd.new (coord_0 coord_1 : Coord) (label : Label) : EdgeEnd :=
  let delta := Coord.sub coord_1 coord_0
  { label := label
    key := { coord_0 := coord_0, coord_1 := coord_1, delta := delta
             quadrant := Quadrant.new delta.x delta.y } }

/-- How `compare_direction` turns the orientation of `(other.c0, other.c1, self.c1)`
into an `Ordering` (the shared `_` arm of the Rust `match`). -/
def orientationOrdering : Orientation → Ordering
  | .Clockwise => .lt
  | .CounterClockwise => .gt
  | .Collinear => .eq

/-- `EdgeEndKey::compare_direction` from `edge_end.rs`. -/
def EdgeEndKey.compare_direction (s other : EdgeEndKey) : Ordering :=
  if s.delta = other.delta then .eq
  else
    match s.quadrant, other.quadrant with
    | some q1, some q2 =>
        if q2.toNat < q1.toNat then .gt
        else if q1.toNat < q2.toNat then .lt
        else orientationOrdering (orient2d other.coord_0 other.coord_1 s.coord_1)
    | _, _ => orientationOrdering (orient2d other.coord_0 other.coord_1 s.coord_1)

theorem Quadrant.toNat_injective : ∀ q1 q2 : Quadrant, q1.toNat = q2.toNat → q1 = q2 := by
  intro q1 q2 h
  cases q1 <;> cases q2 <;> first | rfl | exact absurd h (by decide)

/-- C7: `compare_direction(a, b)` returns `Equal` when the delta vectors are
(bit-)equal; otherwise when both quadrants are defined and differ it returns
`Greater` exactly when `a`'s quadrant is greater in the order `NE < NW < SW < SE`
(and `Less` exactly when smaller); otherwise the orientation of
`(b.c0, b.c1, a.c1)` decides: CCW ↦ Greater, CW ↦ Less, Collinear ↦ Equal. -/
theorem compare_direction_spec (a b : EdgeEndKey) :
    (a.delta = b.delta → a.compare_direction b = .eq)
    ∧ (∀ q1 q2 : Quadrant, a.delta ≠ b.delta → a.quadrant = some q1 →
        b.quadrant = some q2 → q1 ≠ q2 →
        (a.compare_direction b = .gt ↔ q2.toNat < q1.toNat)
        ∧ (a.compare_direction b = .lt ↔ q1.toNat < q2.toNat))
    ∧ (a.delta ≠ b.delta →
        (a.quadrant = b.quadrant ∨ a.quadrant = none ∨ b.quadrant = none) →
        a.compare_direction b = orientationOrdering (orient2d b.coord_0 b.coord_1 a.coord_1)) := by
  refine ⟨fun h => by simp [EdgeEndKey.compare_direction, h], ?_, ?_⟩
  · intro q1 q2 hne hq1 hq2 hqq
    have hts : q1.toNat ≠ q2.toNat := fun h => hqq (Quadrant.toNat_injective _ _ h)
    simp only [EdgeEndKey.compare_direction, if_neg hne, hq1, hq2]
    rcases Nat.lt_trichotomy q1.toNat q2.toNat with h | h | h
    · rw [if_neg (Nat.lt_asymm h), if_pos h]
      exact ⟨⟨fun hc => Ordering.noConfusion hc, fun hc => absurd hc (Nat.lt_asymm h)⟩,
             ⟨fun _ => h, fun _ => rfl⟩⟩
    · exact absurd h hts
    · rw [if_pos h]
      exact ⟨⟨fun _ => h, fun _ => rfl⟩,
             ⟨fun hc => Ordering.noConfusion hc, fun hc => absurd hc (Nat.lt_asymm h)⟩⟩
  · intro hne hq
    rcases hq with hq | hq | hq
    · cases hb : b.quadrant with
      | none =>
          rw [hb] at hq
          simp only [EdgeEndKey.compare_direction, if_neg hne, hq, hb]
      | some q =>
          rw [hb] at hq
          simp only [EdgeEndKey.compare_direction, if_neg hne, hq, hb, Nat.lt_irrefl, if_false]
    · cases hb : b.quadrant <;>
        simp only [EdgeEndKey.compare_direction, if_neg hne, hq, hb]
    · cases ha : a.quadrant <;>
        simp only [EdgeEndKey.compare_direction, if_neg hne, hq, ha]

/-- C10: two edge-ends built at the same origin whose (nonzero) direction vectors
are positive scalar multiples of each other compare `Equal` under the angular
order — the order distinguishes direction only, never magnitude. -/
theorem compare_direction_scale_invariant
    (c0 c1a c1b : Coord) (la lb : Label) (lam : ℚ)
    (hlam : 0 < lam)
    (hsx : c1a.x - c0.x = lam * (c1b.x - c0.x))
    (hsy : c1a.y - c0.y = lam * (c1b.y - c0.y))
    (hna : Coord.sub c1a c0 ≠ ⟨0, 0⟩)
    (hnb : Coord.sub c1b c0 ≠ ⟨0, 0⟩) :
    ((EdgeEnd.new c0 c1a la).key).compare_direction ((EdgeEnd.new c0 c1b lb).key) = .eq := by
  have hda : (Coord.sub c1a c0).x = lam * (Coord.sub c1b c0).x := hsx
  have hdb : (Coord.sub c1a c0).y = lam * (Coord.sub c1b c0).y := hsy
  by_cases hdeq : Coord.sub c1a c0 = Coord.sub c1b c0
  · simp [EdgeEnd.new, EdgeEndKey.compare_direction, hdeq]
  · have hq : Quadrant.new (Coord.sub c1a c0).x (Coord.sub c1a c0).y
        = Quadrant.new (Coord.sub c1b c0).x (Coord.sub c1b c0).y := by
      have hxiff : 0 ≤ (Coord.sub c1a c0).x ↔ 0 ≤ (Coord.sub c1b c0).x := by
        rw [hda]; exact mul_nonneg_iff_of_pos_left hlam
      have hyiff : 0 ≤ (Coord.sub c1a c0).y ↔ 0 ≤ (Coord.sub c1b c0).y := by
        rw [hdb]; exact mul_nonneg_iff_of_pos_left hlam
      have hza : ¬((Coord.sub c1a c0).x = 0 ∧ (Coord.sub c1a c0).y = 0) := by
        intro h
        exact hna (by rcases h with ⟨h1, h2⟩; cases hc : Coord.sub c1a c0
                      simp_all)
      have hzb : ¬((Coord.sub c1b c0).x = 0 ∧ (Coord.sub c1b c0).y = 0) := by
        intro h
        exact hnb (by rcases h with ⟨h1, h2⟩; cases hc : Coord.sub c1b c0
                      simp_all)
      unfold Quadrant.new
      rw [if_neg hza, if_neg hzb]
      by_cases hx : 0 ≤ (Coord.sub c1b c0).x <;> by_cases hy : 0 ≤ (Coord.sub c1b c0).y <;>
        simp [hx, hy, hxiff.2, hyiff.2, hxiff, hyiff]
    have hdet : ((EdgeEnd.new c0 c1b lb).key.coord_1.x - (EdgeEnd.new c0 c1b lb).key.coord_0.x)
          * ((EdgeEnd.new c0 c1a la).key.coord_1.y - (EdgeEnd.new c0 c1b lb).key.coord_0.y)
        - ((EdgeEnd.new c0 c1b lb).key.coord_1.y - (EdgeEnd.new c0 c1b lb).key.coord_0.y)
          * ((EdgeEnd.new c0 c1a la).key.coord_1.x - (EdgeEnd.new c0 c1b lb).key.coord_0.x) = 0 := by
      show (c1b.x - c0.x) * (c1a.y - c0.y) - (c1b.y - c0.y) * (c1a.x - c0.x) = 0
      have hax : c1a.x - c0.x = lam * (c1b.x - c0.x) := hsx
      have hay : c1a.y - c0.y = lam * (c1b.y - c0.y) := hsy
      rw [hax, hay]; ring
    simp only [EdgeEnd.new, EdgeEndKey.compare_direction] at hdet ⊢
    rw [if_neg hdeq, hq]
    cases hqb : Quadrant.new (Coord.sub c1b c0).x (Coord.sub c1b c0).y with
    | none => simp [orient2d, hdet, orientationOrdering]
    | some q => simp [orient2d, hdet, orientationOrdering]

theorem compare_direction_spec_witness :
    ((EdgeEndKey.mk ⟨0, 0⟩ ⟨1, 1⟩ ⟨1, 1⟩ (some .NE)).compare_direction
        (EdgeEndKey.mk ⟨0, 0⟩ ⟨1, -1⟩ ⟨1, -1⟩ (some .SE)) = .gt
      ↔ Quadrant.toNat .SE < Quadrant.toNat .NE)
    ∧ ((EdgeEndKey.mk ⟨0, 0⟩ ⟨1, 1⟩ ⟨1, 1⟩ (some .NE)).compare_direction
        (EdgeEndKey.mk ⟨0, 0⟩ ⟨1, -1⟩ ⟨1, -1⟩ (some .SE)) = .lt
      ↔ Quadrant.toNat .NE < Quadrant.toNat .SE)
    ∧ (EdgeEndKey.mk ⟨0, 0⟩ ⟨2, 2⟩ ⟨2, 2⟩ (some .NE)).compare_direction
        (EdgeEndKey.mk ⟨0, 0⟩ ⟨1, 1⟩ ⟨1, 1⟩ (some .NE))
      = orientationOrdering (orient2d ⟨0, 0⟩ ⟨1, 1⟩ ⟨2, 2⟩) :=
  ⟨((compare_direction_spec (EdgeEndKey.mk ⟨0, 0⟩ ⟨1, 1⟩ ⟨1, 1⟩ (some .NE))
      (EdgeEndKey.mk ⟨0, 0⟩ ⟨1, -1⟩ ⟨1, -1⟩ (some .SE))).2.1 .NE .SE
      (by decide) rfl rfl (by decide)).1,
   ((compare_direction_spec (EdgeEndKey.mk ⟨0, 0⟩ ⟨1, 1⟩ ⟨1, 1⟩ (some .NE))
      (EdgeEndKey.mk ⟨0, 0⟩ ⟨1, -1⟩ ⟨1, -1⟩ (some .SE))).2.1 .NE .SE
      (by decide) rfl rfl (by decide)).2,
   (compare_direction_spec (EdgeEndKey.mk ⟨0, 0⟩ ⟨2, 2⟩ ⟨2, 2⟩ (some .NE))
      (EdgeEndKey.mk ⟨0, 0⟩ ⟨1, 1⟩ ⟨1, 1⟩ (some .NE))).2.2
      (by decide) (Or.inl rfl)⟩

theorem compare_direction_scale_invariant_witness :
    ((EdgeEnd.new ⟨0, 0⟩ ⟨2, 2⟩ Label.empty_line_or_point).key).compare_direction
        ((EdgeEnd.new ⟨0, 0⟩ ⟨1, 1⟩ Label.empty_line_or_point).key) = .eq :=
  compare_direction_scale_invariant ⟨0, 0⟩ ⟨2, 2⟩ ⟨1, 1⟩ Label.empty_line_or_point
    Label.empty_line_or_point 2 (by norm_num) (by norm_num) (by norm_num)
    (by norm_num [Coord.sub]) (by norm_num [Coord.sub])

/-! ## Edges and their intersection sets (`edge.rs`) -/

/-- A line segment (`Line<F>` in the source); the Rust field `end` is a Lean
keyword and is rendered `end_`. -/
structure Lin where
  start : Coord
  end_ : Coord
deriving DecidableEq

/-- Modelled from the spec: `edge_distance(p, segment)` is the monotone
"distance along the segment" measured on the segment's dominant axis (§4.A;
`RobustLineIntersector::compute_edge_distance` is not under `src/`). -/
def compute_edge_distance (p : Coord) (line : Lin) : ℚ :=
  let dx := |line.end_.x - line.start.x|
  let dy := |line.end_.y - line.start.y|
  if dy < dx then |p.x - line.start.x| else |p.y - line.start.y|

/-- `EdgeIntersection`: a point where another edge crosses this edge, located by
`(segment_index, dist)` along the edge. -/
structure EdgeIntersection where
  coord : Coord
  segment_index : ℕ
  dist : ℚ
deriving DecidableEq

/-- Modelled from the spec: the strict order of the intersection set, by
`(segment_index, distance)` (§3; `EdgeIntersection`'s `Ord` impl is not under
`src/`). -/
def eiKeyLt (a b : EdgeIntersection) : Prop :=
  a.segment_index < b.segment_index
    ∨ (a.segment_index = b.segment_index ∧ a.dist < b.dist)

instance (a b : EdgeIntersection) : Decidable (eiKeyLt a b) := by
  unfold eiKeyLt; exact inferInstance

theorem eiKeyLt_irrefl (x : EdgeIntersection) : ¬eiKeyLt x x := by
  simp [eiKeyLt]

theorem eiKeyLt_asymm {x y : EdgeIntersection} (h : eiKeyLt x y) : ¬eiKeyLt y x := by
  rcases h with h | ⟨he, hd⟩
  · rintro (h' | ⟨he', _⟩)
    · exact Nat.lt_asymm h h'
    · exact Nat.lt_irrefl _ (he' ▸ h)
  · rintro (h' | ⟨_, hd'⟩)
    · exact Nat.lt_irrefl _ (he ▸ h')
    · exact lt_asymm hd hd'

/-- Insertion into the ordered intersection set, modelling `BTreeSet::insert`:
an element whose key compares equal to one already present is not inserted. -/
def insertEI (x : EdgeIntersection) : List EdgeIntersection → List EdgeIntersection
  | [] => [x]
  | y :: rest =>
    if eiKeyLt x y then x :: y :: rest
    else if eiKeyLt y x then y :: insertEI x rest
    else y :: rest

theorem insertEI_mem_of_sorted (x : EdgeIntersection) (s : List EdgeIntersection)
    (hs : s.Pairwise eiKeyLt) (hx : x ∈ s) : insertEI x s = s := by
  induction s with
  | nil => cases hx
  | cons y rest ih =>
    rcases List.mem_cons.mp hx with rfl | hx'
    · unfold insertEI
      rw [if_neg (eiKeyLt_irrefl x), if_neg (eiKeyLt_irrefl x)]
    · have hyx : eiKeyLt y x := (List.pairwise_cons.mp hs).1 x hx'
      unfold insertEI
      rw [if_neg (eiKeyLt_asymm hyx), if_pos hyx,
          ih (List.pairwise_cons.mp hs).2 hx']

/-- `Edge` from `edge.rs`.  The `BTreeSet` of intersections is modelled as an
ordered list. -/
structure Edge where
  coords : List Coord
  is_isolated : Bool
  edge_intersections : List EdgeIntersection
  label : Label
deriving DecidableEq

/-- `Edge::mark_as_unisolated`. -/
def Edge.mark_as_unisolated (e : Edge) : Edge := { e with is_isolated := false }

/-- `Edge::is_closed`: first coordinate equals last. -/
def Edge.is_closed (e : Edge) : Bool := e.coords.head? == e.coords.getLast?

/-- `Edge::add_intersection` from `edge.rs`: computes the edge distance,
normalizes an intersection falling exactly on the next vertex to
`(segment_index + 1, 0)`, and inserts it into the set. -/
def Edge.add_intersection (e : Edge) (intersection_coord : Coord) (line : Lin)
    (segment_index : ℕ) : Edge :=
  let distance := compute_edge_distance intersection_coord line
  let next_segment_index := segment_index + 1
  let normalized : ℕ × ℚ :=
    match e.coords[next_segment_index]? with
    | some next_coord =>
        if intersection_coord = next_coord then (next_segment_index, 0)
        else (segment_index, distance)
    | none => (segment_index, distance)
  { e with edge_intersections :=
      insertEI ⟨intersection_coord, normalized.1, normalized.2⟩ e.edge_intersections }

/-- C1: `add_intersection(coord, line, segment_index)` records the intersection
with distance `edge_distance(coord, line)`; when `segment_index + 1` is a valid
vertex index and `coord` equals `coords[segment_index + 1]` it instead records
`(segment_index + 1, 0)`; and inserting an intersection already present in the
(ordered) set leaves the set unchanged. -/
theorem edge_add_intersection_spec (e : Edge) (c : Coord) (l : Lin) (si : ℕ) :
    (e.coords[si + 1]? = some c →
      (e.add_intersection c l si).edge_intersections
        = insertEI ⟨c, si + 1, 0⟩ e.edge_intersections)
    ∧ (e.coords[si + 1]? ≠ some c →
      (e.add_intersection c l si).edge_intersections
        = insertEI ⟨c, si, compute_edge_distance c l⟩ e.edge_intersections)
    ∧ (e.edge_intersections.Pairwise eiKeyLt →
      ∀ x ∈ e.edge_intersections, insertEI x e.edge_intersections = e.edge_intersections) := by
  refine ⟨?_, ?_, fun hp x hx => insertEI_mem_of_sorted x _ hp hx⟩
  · intro h
    simp [Edge.add_intersection, h]
  · intro h
    cases hn : e.coords[si + 1]? with
    | none => simp [Edge.add_intersection, hn]
    | some nc =>
        have hcn : c ≠ nc := fun hc => h (hc ▸ hn)
        simp [Edge.add_intersection, hn, hcn]

theorem edge_add_intersection_spec_witness :
    ((Edge.mk [⟨0, 0⟩, ⟨1, 0⟩, ⟨2, 0⟩] true [] Label.empty_line_or_point).add_intersection
        ⟨1, 0⟩ ⟨⟨0, 0⟩, ⟨2, 0⟩⟩ 0).edge_intersections
      = insertEI ⟨⟨1, 0⟩, 1, 0⟩ []
    ∧ insertEI ⟨⟨0, 0⟩, 0, 0⟩ [⟨⟨0, 0⟩, 0, 0⟩, ⟨⟨2, 0⟩, 2, 0⟩]
      = [⟨⟨0, 0⟩, 0, 0⟩, ⟨⟨2, 0⟩, 2, 0⟩] :=
  ⟨(edge_add_intersection_spec
      (Edge.mk [⟨0, 0⟩, ⟨1, 0⟩, ⟨2, 0⟩] true [] Label.empty_line_or_point)
      ⟨1, 0⟩ ⟨⟨0, 0⟩, ⟨2, 0⟩⟩ 0).1 (by decide),
   (edge_add_intersection_spec
      (Edge.mk [⟨0, 0⟩, ⟨1, 0⟩, ⟨2, 0⟩] true
        [⟨⟨0, 0⟩, 0, 0⟩, ⟨⟨2, 0⟩, 2, 0⟩] Label.empty_line_or_point)
      ⟨1, 0⟩ ⟨⟨0, 0⟩, ⟨2, 0⟩⟩ 0).2.2 (by decide) ⟨⟨0, 0⟩, 0, 0⟩ (by decide)⟩

/-! ## Segment intersection recording (`segment_intersector.rs`) -/

/-- Modelled from the spec: the result of `line_intersection` (§4.A;
`line_intersection.rs` is not under `src/`): either a single point, proper when
interior to both segments, or a collinear overlap segment.  A collinear overlap
is never "proper". -/
inductive LineIntersection where
  | SinglePoint (intersection : Coord) (is_proper : Bool)
  | Collinear (intersection : Lin)
deriving DecidableEq

/-- `LineIntersection::is_proper`. -/
def LineIntersection.is_proper : LineIntersection → Bool
  | .SinglePoint _ p => p
  | .Collinear _ => false

/-- `Edge::add_intersections`: one `add_intersection` for a single point, two
(start and end) for a collinear overlap. -/
def Edge.add_intersections (e : Edge) (intersection : LineIntersection) (line : Lin)
    (segment_index : ℕ) : Edge :=
  match intersection with
  | .SinglePoint p _ => e.add_intersection p line segment_index
  | .Collinear seg =>
      (e.add_intersection seg.start line segment_index).add_intersection
        seg.end_ line segment_index

/-- Modelled from the spec: a `CoordNode` is keyed by its coordinate (§3;
`node.rs` is not under `src/`, and only the coordinate is consulted here). -/
structure CoordNode where
  coordinate : Coord
deriving DecidableEq

/-- The fields of `SegmentIntersector` from `segment_intersector.rs` (the
`line_intersector` trait object is passed separately as a function). -/
structure SegmentIntersector where
  edges_are_from_same_geometry : Bool
  proper_intersection_point : Option Coord
  has_proper_interior_intersection : Bool
  boundary_nodes : Option (List CoordNode × List CoordNode)
deriving DecidableEq

/-- `SegmentIntersector::is_boundary_point`. -/
def SegmentIntersector.is_boundary_point (_si : SegmentIntersector) (intersection : Coord)
    (boundary_nodes : Option (List CoordNode × List CoordNode)) : Bool :=
  match boundary_nodes with
  | some (b0, b1) => (b0 ++ b1).any fun node => intersection == node.coordinate
  | none => false

/-- `SegmentIntersector::is_adjacent_segments`. -/
def is_adjacent_segments (i1 i2 : ℕ) : Bool :=
  (if i1 > i2 then i1 - i2 else i2 - i1) == 1

/-- `SegmentIntersector::is_trivial_intersection`.  The `RefCell` pointer
comparison `edge0.as_ptr() != edge1.as_ptr()` becomes inequality of the arena
indices `index0`, `index1`; `edge0` is the edge stored at `index0` (whose
coordinates are what the check consults). -/
def SegmentIntersector.is_trivial_intersection (intersection : LineIntersection)
    (index0 index1 : ℕ) (edge0 : Edge) (segment_index_0 segment_index_1 : ℕ) : Bool :=
  if index0 ≠ index1 then false
  else
    match intersection with
    | .Collinear _ => false
    | .SinglePoint _ _ =>
      if is_adjacent_segments segment_index_0 segment_index_1 then true
      else if edge0.is_closed then
        let max_segment_index := edge0.coords.length - 1
        decide ((segment_index_0 = 0 ∧ segment_index_1 = max_segment_index)
          ∨ (segment_index_1 = 0 ∧ segment_index_0 = max_segment_index))
      else false

/-- Arena lookup; a dangling index is an error (a `Vec` index panic). -/
def getEdge (edges : List Edge) (i : ℕ) : Except String Edge :=
  match edges[i]? with
  | some e => .ok e
  | none => .error "edge index out of bounds"

/-- Coordinate-slice lookup; out of bounds is an error (a slice index panic). -/
def getCoord (coords : List Coord) (i : ℕ) : Except String Coord :=
  match coords[i]? with
  | some c => .ok c
  | none => .error "coordinate index out of bounds"

/-- In-place mutation of the edge stored at index `i` (a short `borrow_mut`). -/
def updateEdge (edges : List Edge) (i : ℕ) (f : Edge → Edge) : List Edge :=
  match edges[i]? with
  | some e => edges.set i (f e)
  | none => edges

/-- The state mutated by `SegmentIntersector::add_intersections`: the
intersector's own fields plus the arena of shared edges (each `Rc<RefCell<Edge>>`
handle becomes an arena index, the spec's slab+index strategy). -/
structure SegmentIntersectorState where
  segment_intersector : SegmentIntersector
  edges : List Edge
deriving DecidableEq

/-- `SegmentIntersector::add_intersections` from `segment_intersector.rs`. -/
def SegmentIntersector.add_intersections (st : SegmentIntersectorState)
    (line_intersector : Lin → Lin → Option LineIntersection)
    (edge0 segment_index_0 edge1 segment_index_1 : ℕ) :
    Except String SegmentIntersectorState :=
  -- avoid a segment spuriously "intersecting" with itself
  if edge0 = edge1 ∧ segment_index_0 = segment_index_1 then .ok st
  else do
    let e0 ← getEdge st.edges edge0
    let e1 ← getEdge st.edges edge1
    let p00 ← getCoord e0.coords segment_index_0
    let p01 ← getCoord e0.coords (segment_index_0 + 1)
    let p10 ← getCoord e1.coords segment_index_1
    let p11 ← getCoord e1.coords (segment_index_1 + 1)
    let line_0 : Lin := ⟨p00, p01⟩
    let line_1 : Lin := ⟨p10, p11⟩
    match line_intersector line_0 line_1 with
    | none => pure st
    | some intersection =>
      let edges :=
        if !st.segment_intersector.edges_are_from_same_geometry then
          updateEdge (updateEdge st.edges edge0 Edge.mark_as_unisolated)
            edge1 Edge.mark_as_unisolated
        else st.edges
      if SegmentIntersector.is_trivial_intersection intersection edge0 edge1 e0
          segment_index_0 segment_index_1 then
        pure { st with edges := edges }
      else
        -- in the case of self-noding `edge0` may alias `edge1`: the two
        -- mutations are sequential, the second seeing the first's result
        let edges :=
          if st.segment_intersector.edges_are_from_same_geometry
              || !intersection.is_proper then
            updateEdge
              (updateEdge edges edge0 fun e =>
                e.add_intersections intersection line_0 segment_index_0)
              edge1 fun e => e.add_intersections intersection line_1 segment_index_1
          else edges
        match intersection with
        | .SinglePoint c true =>
          let si := { st.segment_intersector with proper_intersection_point := some c }
          let si :=
            if !si.is_boundary_point c si.boundary_nodes then
              { si with has_proper_interior_intersection := true }
            else si
          pure { segment_intersector := si, edges := edges }
        | _ => pure { st with edges := edges }

theorem updateEdge_map_edge_intersections (f : Edge → Edge)
    (hf : ∀ e, (f e).edge_intersections = e.edge_intersections) :
    ∀ (edges : List Edge) (i : ℕ),
      (updateEdge edges i f).map Edge.edge_intersections
        = edges.map Edge.edge_intersections := by
  intro edges
  induction edges with
  | nil => intro i; rfl
  | cons e rest ih =>
    intro i
    cases i with
    | zero => simp [updateEdge, hf]
    | succ n =>
      cases hr : rest[n]? with
      | none => simp [updateEdge, hr]
      | some e' =>
        have h2 : updateEdge rest n f = rest.set n (f e') := by
          simp [updateEdge, hr]
        have h3 := ih n
        rw [h2] at h3
        simp only [updateEdge, List.getElem?_cons_succ, hr, List.set]
        simp [h3]

theorem is_trivial_of_same_edge_adjacent_or_closed (c : Coord) (prop : Bool)
    (i0 si0 si1 : ℕ) (e0 : Edge)
    (htriv : is_adjacent_segments si0 si1 = true
      ∨ (e0.is_closed = true ∧ ((si0 = 0 ∧ si1 = e0.coords.length - 1)
          ∨ (si1 = 0 ∧ si0 = e0.coords.length - 1)))) :
    SegmentIntersector.is_trivial_intersection (.SinglePoint c prop) i0 i0 e0 si0 si1
      = true := by
  unfold SegmentIntersector.is_trivial_intersection
  rw [if_neg (by simp)]
  rcases htriv with h | ⟨hc, hd⟩
  · simp [h]
  · by_cases ha : is_adjacent_segments si0 si1 = true
    · simp [ha]
    · simp only [Bool.not_eq_true] at ha
      simp [ha, hc, hd]

/-- C3: a trivial intersection — same edge, single-point result, with adjacent
segment indices or the first and last segment of a closed edge — records
nothing: every edge's intersection set and the whole `SegmentIntersector`
state (including the proper intersection point) are unchanged. -/
theorem trivial_intersection_records_nothing
    (st : SegmentIntersectorState) (li : Lin → Lin → Option LineIntersection)
    (i0 si0 si1 : ℕ) (e0 : Edge) (p00 p01 p10 p11 c : Coord) (prop : Bool)
    (he : st.edges[i0]? = some e0)
    (h00 : e0.coords[si0]? = some p00) (h01 : e0.coords[si0 + 1]? = some p01)
    (h10 : e0.coords[si1]? = some p10) (h11 : e0.coords[si1 + 1]? = some p11)
    (hli : li ⟨p00, p01⟩ ⟨p10, p11⟩ = some (.SinglePoint c prop))
    (htriv : is_adjacent_segments si0 si1 = true
      ∨ (e0.is_closed = true ∧ ((si0 = 0 ∧ si1 = e0.coords.length - 1)
          ∨ (si1 = 0 ∧ si0 = e0.coords.length - 1)))) :
    ∃ st', SegmentIntersector.add_intersections st li i0 si0 i0 si1 = .ok st'
      ∧ st'.edges.map Edge.edge_intersections = st.edges.map Edge.edge_intersections
      ∧ st'.segment_intersector = st.segment_intersector := by
  by_cases hss : si0 = si1
  · exact ⟨st, by simp [SegmentIntersector.add_intersections, hss], rfl, rfl⟩
  · have hne : ¬(i0 = i0 ∧ si0 = si1) := fun h => hss h.2
    have hg : getEdge st.edges i0 = .ok e0 := by simp [getEdge, he]
    have hc00 : getCoord e0.coords si0 = .ok p00 := by simp [getCoord, h00]
    have hc01 : getCoord e0.coords (si0 + 1) = .ok p01 := by simp [getCoord, h01]
    have hc10 : getCoord e0.coords si1 = .ok p10 := by simp [getCoord, h10]
    have hc11 : getCoord e0.coords (si1 + 1) = .ok p11 := by simp [getCoord, h11]
    have htr := is_trivial_of_same_edge_adjacent_or_closed c prop i0 si0 si1 e0 htriv
    refine ⟨{ st with edges :=
        (if !st.segment_intersector.edges_are_from_same_geometry then
          updateEdge (updateEdge st.edges i0 Edge.mark_as_unisolated)
            i0 Edge.mark_as_unisolated
        else st.edges) }, ?_, ?_, rfl⟩
    · simp only [SegmentIntersector.add_intersections, if_neg hne, hg, hc00, hc01,
        hc10, hc11, hli, htr, Bind.bind, Except.bind, if_true]
      simp [hss]
      rfl
    · by_cases hsg : st.segment_intersector.edges_are_from_same_geometry <;>
        simp [hsg, updateEdge_map_edge_intersections Edge.mark_as_unisolated fun _ => rfl]

theorem trivial_intersection_records_nothing_witness :
    ∃ st', SegmentIntersector.add_intersections
        ⟨⟨true, none, false, none⟩,
         [Edge.mk [⟨0, 0⟩, ⟨1, 0⟩, ⟨2, 0⟩] true [] Label.empty_line_or_point]⟩
        (fun _ _ => some (.SinglePoint ⟨1, 0⟩ false)) 0 0 0 1 = .ok st'
      ∧ st'.edges.map Edge.edge_intersections
          = [Edge.mk [⟨0, 0⟩, ⟨1, 0⟩, ⟨2, 0⟩] true [] Label.empty_line_or_point].map
              Edge.edge_intersections
      ∧ st'.segment_intersector = ⟨true, none, false, none⟩ :=
  trivial_intersection_records_nothing
    ⟨⟨true, none, false, none⟩,
     [Edge.mk [⟨0, 0⟩, ⟨1, 0⟩, ⟨2, 0⟩] true [] Label.empty_line_or_point]⟩
    (fun _ _ => some (.SinglePoint ⟨1, 0⟩ false)) 0 0 1
    (Edge.mk [⟨0, 0⟩, ⟨1, 0⟩, ⟨2, 0⟩] true [] Label.empty_line_or_point)
    ⟨0, 0⟩ ⟨1, 0⟩ ⟨1, 0⟩ ⟨2, 0⟩ ⟨1, 0⟩ false
    (by decide) (by decide) (by decide) (by decide) (by decide) (by decide)
    (Or.inl (by decide))

theorem updateEdge_getElem_self {edges : List Edge} {i : ℕ} {f : Edge → Edge} {e : Edge}
    (h : edges[i]? = some e) : (updateEdge edges i f)[i]? = some (f e) := by
  obtain ⟨hlt, -⟩ := List.getElem?_eq_some_iff.mp h
  unfold updateEdge
  rw [h]
  exact List.getElem?_set_self hlt

theorem updateEdge_getElem_ne {edges : List Edge} {i j : ℕ} (f : Edge → Edge)
    (hij : i ≠ j) : (updateEdge edges i f)[j]? = edges[j]? := by
  unfold updateEdge
  cases h : edges[i]? with
  | none => rfl
  | some e => exact List.getElem?_set_ne hij

theorem mark_add_intersections_comm (e : Edge) (inter : LineIntersection) (l : Lin)
    (si : ℕ) :
    (e.mark_as_unisolated).add_intersections inter l si
      = (e.add_intersections inter l si).mark_as_unisolated := by
  cases inter <;> rfl

theorem mark_edge_intersections (e : Edge) :
    (e.mark_as_unisolated).edge_intersections = e.edge_intersections := rfl

/-- Full evaluation of `SegmentIntersector::add_intersections` on the
non-trivial path, used to settle the recording claims. -/
theorem add_intersections_nontrivial_eval
    (st : SegmentIntersectorState) (li : Lin → Lin → Option LineIntersection)
    (i0 si0 i1 si1 : ℕ) (e0 e1 : Edge) (p00 p01 p10 p11 : Coord)
    (inter : LineIntersection)
    (hne : ¬(i0 = i1 ∧ si0 = si1))
    (he0 : st.edges[i0]? = some e0) (he1 : st.edges[i1]? = some e1)
    (h00 : e0.coords[si0]? = some p00) (h01 : e0.coords[si0 + 1]? = some p01)
    (h10 : e1.coords[si1]? = some p10) (h11 : e1.coords[si1 + 1]? = some p11)
    (hli : li ⟨p00, p01⟩ ⟨p10, p11⟩ = some inter)
    (htriv : SegmentIntersector.is_trivial_intersection inter i0 i1 e0 si0 si1 = false) :
    SegmentIntersector.add_intersections st li i0 si0 i1 si1 =
      (let edges1 :=
        if !st.segment_intersector.edges_are_from_same_geometry then
          updateEdge (updateEdge st.edges i0 Edge.mark_as_unisolated)
            i1 Edge.mark_as_unisolated
        else st.edges
      let edges2 :=
        if st.segment_intersector.edges_are_from_same_geometry
            || !inter.is_proper then
          updateEdge
            (updateEdge edges1 i0 fun e =>
              e.add_intersections inter ⟨p00, p01⟩ si0)
            i1 fun e => e.add_intersections inter ⟨p10, p11⟩ si1
        else edges1
      match inter with
      | .SinglePoint c true =>
        let si := { st.segment_intersector with proper_intersection_point := some c }
        let si :=
          if !si.is_boundary_point c si.boundary_nodes then
            { si with has_proper_interior_intersection := true }
          else si
        .ok { segment_intersector := si, edges := edges2 }
      | _ => .ok { st with edges := edges2 }) := by
  have hg0 : getEdge st.edges i0 = .ok e0 := by simp [getEdge, he0]
  have hg1 : getEdge st.edges i1 = .ok e1 := by simp [getEdge, he1]
  have hc00 : getCoord e0.coords si0 = .ok p00 := by simp [getCoord, h00]
  have hc01 : getCoord e0.coords (si0 + 1) = .ok p01 := by simp [getCoord, h01]
  have hc10 : getCoord e1.coords si1 = .ok p10 := by simp [getCoord, h10]
  have hc11 : getCoord e1.coords (si1 + 1) = .ok p11 := by simp [getCoord, h11]
  simp only [SegmentIntersector.add_intersections, if_neg hne, hg0, hg1, hc00, hc01,
    hc10, hc11, hli, htriv, Bind.bind, Except.bind, Bool.false_eq_true, if_false]
  cases inter with
  | SinglePoint c prop => cases prop <;> rfl
  | Collinear seg => rfl

/-- C2 (counterexample): a proper single-point intersection between two edges
of *different* geometries is found and is not trivial, yet neither edge's
intersection set receives it — only the proper intersection point is
remembered.  The two diagonal edges cross properly at `(1,1)`. -/
theorem proper_crossgeometry_intersection_not_recorded :
    SegmentIntersector.is_trivial_intersection (.SinglePoint ⟨1, 1⟩ true) 0 1
        (Edge.mk [⟨0, 0⟩, ⟨2, 2⟩] true [] Label.empty_line_or_point) 0 0 = false
    ∧ SegmentIntersector.add_intersections
        ⟨⟨false, none, false, none⟩,
         [Edge.mk [⟨0, 0⟩, ⟨2, 2⟩] true [] Label.empty_line_or_point,
          Edge.mk [⟨0, 2⟩, ⟨2, 0⟩] true [] Label.empty_line_or_point]⟩
        (fun _ _ => some (.SinglePoint ⟨1, 1⟩ true)) 0 0 1 0
      = .ok ⟨⟨false, some ⟨1, 1⟩, true, none⟩,
         [Edge.mk [⟨0, 0⟩, ⟨2, 2⟩] false [] Label.empty_line_or_point,
          Edge.mk [⟨0, 2⟩, ⟨2, 0⟩] false [] Label.empty_line_or_point]⟩ :=
  ⟨rfl, rfl⟩

/-- C2 (amended): when the intersection found between two segments is not
trivial **and** the edges are from the same geometry or the intersection is not
proper, `add_intersections` is invoked on both edges, so the intersection is
recorded in both edges' intersection sets (for an aliased self-noding pair the
two recordings apply in sequence to the one edge). -/
theorem nontrivial_included_intersection_recorded
    (st : SegmentIntersectorState) (li : Lin → Lin → Option LineIntersection)
    (i0 si0 i1 si1 : ℕ) (e0 e1 : Edge) (p00 p01 p10 p11 : Coord)
    (inter : LineIntersection)
    (hne : ¬(i0 = i1 ∧ si0 = si1))
    (he0 : st.edges[i0]? = some e0) (he1 : st.edges[i1]? = some e1)
    (h00 : e0.coords[si0]? = some p00) (h01 : e0.coords[si0 + 1]? = some p01)
    (h10 : e1.coords[si1]? = some p10) (h11 : e1.coords[si1 + 1]? = some p11)
    (hli : li ⟨p00, p01⟩ ⟨p10, p11⟩ = some inter)
    (htriv : SegmentIntersector.is_trivial_intersection inter i0 i1 e0 si0 si1 = false)
    (hrec : st.segment_intersector.edges_are_from_same_geometry = true
      ∨ inter.is_proper = false) :
    ∃ st', SegmentIntersector.add_intersections st li i0 si0 i1 si1 = .ok st'
      ∧ (i0 ≠ i1 →
          (st'.edges[i0]?).map Edge.edge_intersections
            = some (e0.add_intersections inter ⟨p00, p01⟩ si0).edge_intersections
          ∧ (st'.edges[i1]?).map Edge.edge_intersections
            = some (e1.add_intersections inter ⟨p10, p11⟩ si1).edge_intersections)
      ∧ (i0 = i1 →
          (st'.edges[i1]?).map Edge.edge_intersections
            = some ((e0.add_intersections inter ⟨p00, p01⟩ si0).add_intersections
                inter ⟨p10, p11⟩ si1).edge_intersections) := by
  have heval := add_intersections_nontrivial_eval st li i0 si0 i1 si1 e0 e1
    p00 p01 p10 p11 inter hne he0 he1 h00 h01 h10 h11 hli htriv
  have hrecb : (st.segment_intersector.edges_are_from_same_geometry
      || !inter.is_proper) = true := by
    rcases hrec with h | h <;> simp [h]
  simp only [hrecb, if_true] at heval
  obtain ⟨st', hok, hst⟩ :
      ∃ st', SegmentIntersector.add_intersections st li i0 si0 i1 si1 = .ok st'
        ∧ st'.edges = updateEdge (updateEdge
            (if !st.segment_intersector.edges_are_from_same_geometry then
              updateEdge (updateEdge st.edges i0 Edge.mark_as_unisolated)
                i1 Edge.mark_as_unisolated
            else st.edges)
            i0 fun e => e.add_intersections inter ⟨p00, p01⟩ si0)
            i1 fun e => e.add_intersections inter ⟨p10, p11⟩ si1 := by
    rw [heval]
    cases inter with
    | SinglePoint c prop => cases prop <;> exact ⟨_, rfl, rfl⟩
    | Collinear seg => exact ⟨_, rfl, rfl⟩
  have hE1i0 : ∀ j : ℕ, ∀ ej : Edge, st.edges[j]? = some ej →
      (if !st.segment_intersector.edges_are_from_same_geometry then
        updateEdge (updateEdge st.edges i0 Edge.mark_as_unisolated)
          i1 Edge.mark_as_unisolated
      else st.edges)[j]?
        = some ej ∨
      (if !st.segment_intersector.edges_are_from_same_geometry then
        updateEdge (updateEdge st.edges i0 Edge.mark_as_unisolated)
          i1 Edge.mark_as_unisolated
      else st.edges)[j]?
        = some ej.mark_as_unisolated := by
    intro j ej hej
    by_cases hsg : st.segment_intersector.edges_are_from_same_geometry
    · left; simp [hsg, hej]
    · simp only [hsg, Bool.not_false, if_pos]
      by_cases hj1 : i1 = j
      · right
        subst hj1
        by_cases hj0 : i0 = i1
        · subst hj0
          -- mark is idempotent, so double-marking is single-marking
          rw [updateEdge_getElem_self (updateEdge_getElem_self hej)]
          rfl
        · rw [updateEdge_getElem_self ((updateEdge_getElem_ne _ hj0).trans hej)]
      · by_cases hj0 : i0 = j
        · right
          subst hj0
          rw [updateEdge_getElem_ne _ hj1, updateEdge_getElem_self hej]
        · left
          rw [updateEdge_getElem_ne _ hj1, updateEdge_getElem_ne _ hj0, hej]
  refine ⟨st', hok, ?_, ?_⟩
  · intro hii
    constructor
    · rw [hst, updateEdge_getElem_ne _ (Ne.symm hii)]
      rcases hE1i0 i0 e0 he0 with h | h
      · rw [updateEdge_getElem_self h]
        rfl
      · rw [updateEdge_getElem_self h]
        simp [mark_add_intersections_comm, mark_edge_intersections]
    · rw [hst]
      rcases hE1i0 i1 e1 he1 with h | h
      · rw [updateEdge_getElem_self ((updateEdge_getElem_ne _ hii).trans h)]
        rfl
      · rw [updateEdge_getElem_self ((updateEdge_getElem_ne _ hii).trans h)]
        simp [mark_add_intersections_comm, mark_edge_intersections]
  · intro hii
    subst hii
    have he01 : e1 = e0 := by
      rw [he0] at he1; exact (Option.some.inj he1).symm
    subst he01
    rw [hst]
    rcases hE1i0 i0 e1 he0 with h | h
    · rw [updateEdge_getElem_self (updateEdge_getElem_self h)]
      rfl
    · rw [updateEdge_getElem_self (updateEdge_getElem_self h)]
      simp [mark_add_intersections_comm, mark_edge_intersections]

theorem nontrivial_included_intersection_recorded_witness :
    ∃ st', SegmentIntersector.add_intersections
        ⟨⟨true, none, false, none⟩,
         [Edge.mk [⟨0, 0⟩, ⟨2, 2⟩] true [] Label.empty_line_or_point,
          Edge.mk [⟨0, 2⟩, ⟨2, 0⟩] true [] Label.empty_line_or_point]⟩
        (fun _ _ => some (.SinglePoint ⟨1, 1⟩ true)) 0 0 1 0 = .ok st'
      ∧ (0 ≠ 1 →
          (st'.edges[0]?).map Edge.edge_intersections
            = some ((Edge.mk [⟨0, 0⟩, ⟨2, 2⟩] true [] Label.empty_line_or_point).add_intersections
                (.SinglePoint ⟨1, 1⟩ true) ⟨⟨0, 0⟩, ⟨2, 2⟩⟩ 0).edge_intersections
          ∧ (st'.edges[1]?).map Edge.edge_intersections
            = some ((Edge.mk [⟨0, 2⟩, ⟨2, 0⟩] true [] Label.empty_line_or_point).add_intersections
                (.SinglePoint ⟨1, 1⟩ true) ⟨⟨0, 2⟩, ⟨2, 0⟩⟩ 0).edge_intersections)
      ∧ (0 = 1 →
          (st'.edges[1]?).map Edge.edge_intersections
            = some (((Edge.mk [⟨0, 0⟩, ⟨2, 2⟩] true [] Label.empty_line_or_point).add_intersections
                  (.SinglePoint ⟨1, 1⟩ true) ⟨⟨0, 0⟩, ⟨2, 2⟩⟩ 0).add_intersections
                (.SinglePoint ⟨1, 1⟩ true) ⟨⟨0, 2⟩, ⟨2, 0⟩⟩ 0).edge_intersections) :=
  nontrivial_included_intersection_recorded
    ⟨⟨true, none, false, none⟩,
     [Edge.mk [⟨0, 0⟩, ⟨2, 2⟩] true [] Label.empty_line_or_point,
      Edge.mk [⟨0, 2⟩, ⟨2, 0⟩] true [] Label.empty_line_or_point]⟩
    (fun _ _ => some (.SinglePoint ⟨1, 1⟩ true)) 0 0 1 0
    (Edge.mk [⟨0, 0⟩, ⟨2, 2⟩] true [] Label.empty_line_or_point)
    (Edge.mk [⟨0, 2⟩, ⟨2, 0⟩] true [] Label.empty_line_or_point)
    ⟨0, 0⟩ ⟨2, 2⟩ ⟨0, 2⟩ ⟨2, 0⟩ (.SinglePoint ⟨1, 1⟩ true)
    (by decide) (by decide) (by decide) (by decide) (by decide)
    (by decide) (by decide) (by decide) (by decide) (Or.inl (by decide))

/-! ## Zero-length edge-ends (C9) -/

/-- C9 (counterexample): constructing an `EdgeEnd` with identical endpoints is
not an error surfaced to the caller — `EdgeEnd::new` is infallible and simply
stores a zero delta with an absent quadrant. -/
theorem zero_length_edge_end_accepted :
    (EdgeEnd.new ⟨0, 0⟩ ⟨0, 0⟩ Label.empty_line_or_point).key
      = ⟨⟨0, 0⟩, ⟨0, 0⟩, ⟨0, 0⟩, none⟩ := by
  simp [EdgeEnd.new, Coord.sub, Quadrant.new]

/-- C9 (amended): a zero-length edge-end is silently accepted: `EdgeEnd::new`
always returns a value, whose delta is the zero vector and whose quadrant is
absent (`Quadrant::new` yields `none` on the zero vector); no `InvalidGeometry`
error exists on this path. -/
theorem zero_length_edge_end_silently_accepted (c : Coord) (label : Label) :
    (EdgeEnd.new c c label).key.quadrant = none
    ∧ (EdgeEnd.new c c label).key.delta = ⟨0, 0⟩
    ∧ (EdgeEnd.new c c label).key.coord_0 = c
    ∧ (EdgeEnd.new c c label).key.coord_1 = c
    ∧ (EdgeEnd.new c c label).label = label
    ∧ Quadrant.new (0 : ℚ) 0 = none := by
  have hx : c.x - c.x = 0 := sub_self _
  have hy : c.y - c.y = 0 := sub_self _
  refine ⟨?_, ?_, rfl, rfl, rfl, by simp [Quadrant.new]⟩
  · show Quadrant.new (c.x - c.x) (c.y - c.y) = none
    rw [hx, hy]
    simp [Quadrant.new]
  · show Coord.mk (c.x - c.x) (c.y - c.y) = ⟨0, 0⟩
    rw [hx, hy]

/-! ## The intersection matrix contribution of a labeled component (C6) -/

/-- `Dimensions`: the dimension recorded in a DE-9IM cell. -/
inductive Dimensions where
  | Empty
  | ZeroDimensional
  | OneDimensional
  | TwoDimensional
deriving DecidableEq

/-- Rank of a `Dimensions` value (`Empty < 0-D < 1-D < 2-D`). -/
def Dimensions.toNat : Dimensions → ℕ
  | .Empty => 0
  | .ZeroDimensional => 1
  | .OneDimensional => 2
  | .TwoDimensional => 3

/-- The larger of two dimensions. -/
def Dimensions.max (a b : Dimensions) : Dimensions :=
  if a.toNat ≤ b.toNat then b else a

theorem Dimensions.max_empty_right (d : Dimensions) : d.max .Empty = d := by
  cases d <;> rfl

theorem Dimensions.max_empty_left (d : Dimensions) : Dimensions.max .Empty d = d := by
  cases d <;> rfl

instance : Fintype CoordPos :=
  ⟨⟨{.Inside, .OnBoundary, .Outside}, by decide⟩, fun x => by cases x <;> decide⟩

instance : Fintype Dimensions :=
  ⟨⟨{.Empty, .ZeroDimensional, .OneDimensional, .TwoDimensional}, by decide⟩,
   fun x => by cases x <;> decide⟩

/-- Modelled from the spec: the `IntersectionMatrix` is a 3×3 grid of
`Dimensions` indexed by a position in A and a position in B (§3;
`intersection_matrix.rs` is not under `src/`). -/
structure IntersectionMatrix where
  m : CoordPos → CoordPos → Dimensions

instance : DecidableEq IntersectionMatrix := fun a b =>
  decidable_of_iff (a.m = b.m) (by cases a; cases b; simp)

/-- `IntersectionMatrix::get`. -/
def IntersectionMatrix.get (im : IntersectionMatrix) (a b : CoordPos) : Dimensions :=
  im.m a b

/-- Modelled from the spec: `set_at_least_if_valid(posA, posB, d)` raises cell
`(posA, posB)` to `max(current, d)` only when both positions are known (§3). -/
def IntersectionMatrix.set_at_least_if_valid (im : IntersectionMatrix)
    (pa pb : Option CoordPos) (d : Dimensions) : IntersectionMatrix :=
  match pa, pb with
  | some a, some b =>
      ⟨fun x y => if x = a ∧ y = b then (im.m x y).max d else im.m x y⟩
  | _, _ => im

theorem set_at_least_if_valid_get (im : IntersectionMatrix) (pa pb : Option CoordPos)
    (d : Dimensions) (a b : CoordPos) :
    (im.set_at_least_if_valid pa pb d).get a b
      = if pa = some a ∧ pb = some b then (im.get a b).max d else im.get a b := by
  cases pa with
  | none => simp [IntersectionMatrix.set_at_least_if_valid]
  | some pa' =>
    cases pb with
    | none => simp [IntersectionMatrix.set_at_least_if_valid]
    | some pb' =>
      simp only [IntersectionMatrix.set_at_least_if_valid, IntersectionMatrix.get]
      generalize im.m a b = g
      revert d g
      revert pa' pb' a b
      decide

/-- `Edge::update_intersection_matrix` from `edge.rs` (static method): the On
pair contributes dimension 1; for an area label both side pairs contribute
dimension 2.  Side reads of a `LineOrPoint` position panic (`Except.error`). -/
def Edge.update_intersection_matrix (label : Label) (im : IntersectionMatrix) :
    Except String IntersectionMatrix := do
  let on0 ← label.position 0 .On
  let on1 ← label.position 1 .On
  let im1 := im.set_at_least_if_valid on0 on1 .OneDimensional
  if label.is_area then
    let l0 ← label.position 0 .Left
    let l1 ← label.position 1 .Left
    let im2 := im1.set_at_least_if_valid l0 l1 .TwoDimensional
    let r0 ← label.position 0 .Right
    let r1 ← label.position 1 .Right
    pure (im2.set_at_least_if_valid r0 r1 .TwoDimensional)
  else
    pure im1

/-- C6: each cell of the updated matrix is the max of its previous value with
the contributions of this label: dimension 1 at the cell addressed by the two
known On positions, and — when the label is area-typed — dimension 2 at the
cells addressed by the two known Left positions and the two known Right
positions; a pair with an unknown side contributes nothing, and every other
cell is unchanged. -/
theorem update_intersection_matrix_spec (label : Label) (im im' : IntersectionMatrix)
    (h : Edge.update_intersection_matrix label im = .ok im') (a b : CoordPos) :
    im'.get a b = Dimensions.max (im.get a b)
      (Dimensions.max
        (if label.on_position 0 = some a ∧ label.on_position 1 = some b
          then .OneDimensional else .Empty)
        (if label.is_area = true
            ∧ ((label.position 0 .Left = .ok (some a) ∧ label.position 1 .Left = .ok (some b))
              ∨ (label.position 0 .Right = .ok (some a)
                ∧ label.position 1 .Right = .ok (some b)))
          then .TwoDimensional else .Empty)) := by
  by_cases ha : label.is_area
  · cases hl0 : label.position 0 .Left with
    | error msg =>
        rw [Edge.update_intersection_matrix] at h
        simp [Label.position_on_eq, Bind.bind, Except.bind, ha, hl0] at h
    | ok l0 =>
      cases hl1 : label.position 1 .Left with
      | error msg =>
          rw [Edge.update_intersection_matrix] at h
          simp [Label.position_on_eq, Bind.bind, Except.bind, ha, hl0, hl1] at h
      | ok l1 =>
        cases hr0 : label.position 0 .Right with
        | error msg =>
            rw [Edge.update_intersection_matrix] at h
            simp [Label.position_on_eq, Bind.bind, Except.bind, ha, hl0, hl1, hr0] at h
        | ok r0 =>
          cases hr1 : label.position 1 .Right with
          | error msg =>
              rw [Edge.update_intersection_matrix] at h
              simp [Label.position_on_eq, Bind.bind, Except.bind, ha, hl0, hl1,
                hr0, hr1] at h
          | ok r1 =>
            have him' : im' = ((im.set_at_least_if_valid (label.on_position 0)
                  (label.on_position 1) .OneDimensional).set_at_least_if_valid
                  l0 l1 .TwoDimensional).set_at_least_if_valid r0 r1 .TwoDimensional := by
              rw [Edge.update_intersection_matrix] at h
              simp [Label.position_on_eq, Bind.bind, Except.bind, ha, hl0, hl1,
                hr0, hr1, pure, Except.pure] at h
              exact h.symm
            subst him'
            simp only [set_at_least_if_valid_get, hl0, hl1, hr0, hr1, ha,
              Except.ok.injEq, true_and]
            generalize im.get a b = g
            by_cases h1 : label.on_position 0 = some a ∧ label.on_position 1 = some b <;>
              by_cases h2 : l0 = some a ∧ l1 = some b <;>
              by_cases h3 : r0 = some a ∧ r1 = some b <;>
              simp only [h1, h2, h3, if_true, ite_true, ite_false, and_true, true_and,
                false_or, or_false, and_false, false_and, or_self, or_true, true_or,
                iff_true, iff_false, not_true, not_false_iff] <;>
              cases g <;> rfl
  · have hab : label.is_area = false := by simpa using ha
    have him' : im' = im.set_at_least_if_valid (label.on_position 0)
        (label.on_position 1) .OneDimensional := by
      rw [Edge.update_intersection_matrix] at h
      simp [Label.position_on_eq, Bind.bind, Except.bind, hab, pure, Except.pure] at h
      exact h.symm
    subst him'
    simp only [set_at_least_if_valid_get, hab, Bool.false_eq_true, false_and,
      if_false, ite_false]
    generalize im.get a b = g
    by_cases h1 : label.on_position 0 = some a ∧ label.on_position 1 = some b <;>
      simp only [h1, ite_true, ite_false] <;>
      cases g <;> rfl

theorem update_intersection_matrix_spec_witness :
    (IntersectionMatrix.mk fun a b =>
        if a = .OnBoundary ∧ b = .OnBoundary then .OneDimensional
        else if a = .Inside ∧ b = .Inside then .TwoDimensional
        else if a = .Outside ∧ b = .Outside then .TwoDimensional
        else .Empty).get .Inside .Inside
      = Dimensions.max ((IntersectionMatrix.mk fun _ _ => .Empty).get .Inside .Inside)
        (Dimensions.max
          (if (Label.mk fun _ => .Area (some .OnBoundary) (some .Inside)
                (some .Outside)).on_position 0 = some .Inside
              ∧ (Label.mk fun _ => .Area (some .OnBoundary) (some .Inside)
                (some .Outside)).on_position 1 = some .Inside
            then .OneDimensional else .Empty)
          (if (Label.mk fun _ => .Area (some .OnBoundary) (some .Inside)
                (some .Outside)).is_area = true
              ∧ (((Label.mk fun _ => .Area (some .OnBoundary) (some .Inside)
                    (some .Outside)).position 0 .Left = .ok (some .Inside)
                  ∧ (Label.mk fun _ => .Area (some .OnBoundary) (some .Inside)
                    (some .Outside)).position 1 .Left = .ok (some .Inside))
                ∨ ((Label.mk fun _ => .Area (some .OnBoundary) (some .Inside)
                    (some .Outside)).position 0 .Right = .ok (some .Inside)
                  ∧ (Label.mk fun _ => .Area (some .OnBoundary) (some .Inside)
                    (some .Outside)).position 1 .Right = .ok (some .Inside)))
            then .TwoDimensional else .Empty)) :=
  update_intersection_matrix_spec
    (Label.mk fun _ => .Area (some .OnBoundary) (some .Inside) (some .Outside))
    (IntersectionMatrix.mk fun _ _ => .Empty)
    (IntersectionMatrix.mk fun a b =>
      if a = .OnBoundary ∧ b = .OnBoundary then .OneDimensional
      else if a = .Inside ∧ b = .Inside then .TwoDimensional
      else if a = .Outside ∧ b = .Outside then .TwoDimensional
      else .Empty)
    (by decide) .Inside .Inside

/-! ## EdgeEndBundle label synthesis (`edge_end_bundle.rs`) -/

/-- Modelled from the spec: `determine_boundary(boundary_count)` returns
`OnBoundary` iff the count is odd, else `Inside` — the Mod-2 rule (§4.D;
`GeometryGraph::determine_boundary` is not under `src/`). -/
def determine_boundary (boundary_count : ℕ) : CoordPos :=
  if boundary_count % 2 = 1 then .OnBoundary else .Inside

/-- `EdgeEndBundle` from `edge_end_bundle.rs`: the edge-ends collected at one
node that share a direction. -/
structure EdgeEndBundle where
  coordinate : Coord
  edge_ends : List EdgeEnd
deriving DecidableEq

/-- `LabeledEdgeEndBundle`: a bundle together with its synthesized label. -/
structure LabeledEdgeEndBundle where
  label : Label
  edge_end_bundle : EdgeEndBundle

instance : DecidableEq LabeledEdgeEndBundle := fun a b =>
  if h1 : a.label = b.label then
    if h2 : a.edge_end_bundle = b.edge_end_bundle then
      isTrue (by cases a; cases b; simp_all)
    else isFalse (fun hh => h2 (by rw [hh]))
  else isFalse (fun hh => h1 (by rw [hh]))

/-- The counting loop of `compute_label_on`: boundary count plus the
found-interior flag, member by member. -/
def boundary_interior_scan (i : Fin 2) :
    List EdgeEnd → ℕ × Bool → ℕ × Bool
  | [], acc => acc
  | e :: rest, (bc, fi) =>
    match e.label.on_position i with
    | some .OnBoundary => boundary_interior_scan i rest (bc + 1, fi)
    | some .Inside => boundary_interior_scan i rest (bc, true)
    | _ => boundary_interior_scan i rest (bc, fi)

/-- `EdgeEndBundle::compute_label_on`: odd boundary count ↦ `OnBoundary`, even
positive ↦ `Inside` (via `determine_boundary`), else `Inside` when some member
is interior, else leave the label untouched. -/
def compute_label_on (edge_ends : List EdgeEnd) (label : Label) (geom_index : Fin 2) :
    Label :=
  let scanned := boundary_interior_scan geom_index edge_ends (0, false)
  let position : Option CoordPos :=
    if scanned.1 > 0 then some (determine_boundary scanned.1)
    else if scanned.2 then some .Inside
    else none
  match position with
  | some p => label.set_on_position geom_index p
  | none => label

/-- The scanning loop of `compute_label_side`, with its break on `Inside`
(interior primacy); a side read of a `LineOrPoint` member propagates the panic. -/
def side_position_scan (i : Fin 2) (side : Direction) :
    List EdgeEnd → Option CoordPos → Except String (Option CoordPos)
  | [], acc => .ok acc
  | e :: rest, acc =>
    if e.label.is_area then
      match e.label.position i side with
      | .error msg => .error msg
      | .ok (some .Inside) => .ok (some .Inside)
      | .ok (some .Outside) => side_position_scan i side rest (some .Outside)
      | .ok _ => side_position_scan i side rest acc
    else side_position_scan i side rest acc

/-- `EdgeEndBundle::compute_label_side`. -/
def compute_label_side (edge_ends : List EdgeEnd) (label : Label) (geom_index : Fin 2)
    (side : Direction) : Except String Label := do
  let position ← side_position_scan geom_index side edge_ends none
  match position with
  | some p => label.set_position geom_index side p
  | none => pure label

/-- One iteration of the `for i in 0..2` loop of `into_labeled`: the On label,
and — when the bundle is area-typed — both side labels for geometry `i`. -/
def into_labeled_step (edge_ends : List EdgeEnd) (bundle_is_area : Bool)
    (label : Label) (i : Fin 2) : Except String Label := do
  let label := compute_label_on edge_ends label i
  if bundle_is_area then do
    let label ← compute_label_side edge_ends label i .Left
    compute_label_side edge_ends label i .Right
  else pure label

/-- `EdgeEndBundle::into_labeled` from `edge_end_bundle.rs`: area detection,
then for each geometry index the On label and — for area bundles — the two
side labels. -/
def EdgeEndBundle.into_labeled (b : EdgeEndBundle) :
    Except String LabeledEdgeEndBundle := do
  let bundle_is_area := b.edge_ends.any fun e => e.label.is_area
  let label := if bundle_is_area then Label.empty_area else Label.empty_line_or_point
  let label ← into_labeled_step b.edge_ends bundle_is_area label 0
  let label ← into_labeled_step b.edge_ends bundle_is_area label 1
  pure ⟨label, b⟩

/-! Helper lemmas relating the labeler's mutations to single positions. -/

theorem TopologyPosition.getOn_set_on (t : TopologyPosition) (p : CoordPos) :
    (t.set_on_position p).getOn = some p := by
  cases t <;> rfl

theorem TopologyPosition.get_set_on (t : TopologyPosition) (p : CoordPos)
    (d : Direction) (hd : d ≠ .On) :
    (t.set_on_position p).get d = t.get d := by
  cases t <;> cases d <;> first | rfl | exact absurd rfl hd

theorem TopologyPosition.get_set_position_self {t t' : TopologyPosition}
    {d : Direction} {p : CoordPos} (h : t.set_position d p = .ok t') :
    t'.get d = .ok (some p) := by
  cases t <;> cases d <;>
    simp only [TopologyPosition.set_position, Except.ok.injEq,
      reduceCtorEq] at h <;>
    (subst h; rfl)

theorem TopologyPosition.get_set_position_other {t t' : TopologyPosition}
    {d d' : Direction} {p : CoordPos} (h : t.set_position d p = .ok t')
    (hne : d' ≠ d) : t'.get d' = t.get d' := by
  cases t <;> cases d <;> cases d' <;>
    simp only [TopologyPosition.set_position, Except.ok.injEq,
      reduceCtorEq] at h <;>
    first
      | exact absurd rfl hne
      | (subst h; rfl)

theorem TopologyPosition.getOn_set_position {t t' : TopologyPosition}
    {d : Direction} {p : CoordPos} (hd : d ≠ .On) (h : t.set_position d p = .ok t') :
    t'.getOn = t.getOn := by
  cases t <;> cases d <;>
    simp only [TopologyPosition.set_position, Except.ok.injEq,
      reduceCtorEq] at h <;>
    first
      | exact absurd rfl hd
      | (subst h; rfl)

theorem Label.on_position_set_on_self (l : Label) (i : Fin 2) (p : CoordPos) :
    (l.set_on_position i p).on_position i = some p := by
  unfold Label.set_on_position Label.on_position
  dsimp only
  rw [updateTopology_same]
  exact TopologyPosition.getOn_set_on _ _

theorem Label.on_position_set_on_other (l : Label) (i j : Fin 2) (p : CoordPos)
    (hij : i ≠ j) : (l.set_on_position i p).on_position j = l.on_position j := by
  unfold Label.set_on_position Label.on_position
  dsimp only
  rw [updateTopology_noteq _ _ _ _ (Ne.symm hij)]

theorem Label.position_set_on (l : Label) (i : Fin 2) (p : CoordPos) (k : Fin 2)
    (d : Direction) (hd : d ≠ .On) :
    (l.set_on_position i p).position k d = l.position k d := by
  unfold Label.set_on_position Label.position
  dsimp only
  by_cases hik : i = k
  · subst hik
    rw [updateTopology_same]
    exact TopologyPosition.get_set_on _ _ _ hd
  · rw [updateTopology_noteq _ _ _ _ (Ne.symm hik)]

theorem Label.set_position_ok_position_self {l l' : Label} {i : Fin 2}
    {d : Direction} {p : CoordPos} (h : l.set_position i d p = .ok l') :
    l'.position i d = .ok (some p) := by
  unfold Label.set_position at h
  cases ht : (l.geometry_topologies i).set_position d p with
  | error msg => rw [ht] at h; cases h
  | ok t' =>
    rw [ht] at h
    cases h
    unfold Label.position
    show (updateTopology l.geometry_topologies i t' i).get d = _
    rw [updateTopology_same]
    exact TopologyPosition.get_set_position_self ht

theorem Label.set_position_ok_position_other {l l' : Label} {i : Fin 2}
    {d : Direction} {p : CoordPos} (h : l.set_position i d p = .ok l')
    (k : Fin 2) (d' : Direction) (hne : ¬(i = k ∧ d = d')) :
    l'.position k d' = l.position k d' := by
  unfold Label.set_position at h
  cases ht : (l.geometry_topologies i).set_position d p with
  | error msg => rw [ht] at h; cases h
  | ok t' =>
    rw [ht] at h
    cases h
    unfold Label.position
    by_cases hik : i = k
    · subst hik
      show (updateTopology l.geometry_topologies i t' i).get d' = _
      rw [updateTopology_same]
      exact TopologyPosition.get_set_position_other ht
        (fun hdd => hne ⟨rfl, hdd.symm⟩)
    · show (updateTopology l.geometry_topologies i t' k).get d' = _
      rw [updateTopology_noteq _ _ _ _ (Ne.symm hik)]

theorem Label.set_position_ok_on_position {l l' : Label} {i : Fin 2}
    {d : Direction} {p : CoordPos} (hd : d ≠ .On)
    (h : l.set_position i d p = .ok l') (k : Fin 2) :
    l'.on_position k = l.on_position k := by
  unfold Label.set_position at h
  cases ht : (l.geometry_topologies i).set_position d p with
  | error msg => rw [ht] at h; cases h
  | ok t' =>
    rw [ht] at h
    cases h
    unfold Label.on_position
    by_cases hik : i = k
    · subst hik
      show (updateTopology l.geometry_topologies i t' i).getOn = _
      rw [updateTopology_same]
      exact TopologyPosition.getOn_set_position hd ht
    · show (updateTopology l.geometry_topologies i t' k).getOn = _
      rw [updateTopology_noteq _ _ _ _ (Ne.symm hik)]

theorem boundary_interior_scan_spec (i : Fin 2) :
    ∀ (l : List EdgeEnd) (bc : ℕ) (fi : Bool),
      boundary_interior_scan i l (bc, fi)
        = (bc + l.countP (fun e => decide (e.label.on_position i = some .OnBoundary)),
           fi || l.any fun e => decide (e.label.on_position i = some .Inside)) := by
  intro l
  induction l with
  | nil => intro bc fi; simp [boundary_interior_scan]
  | cons e rest ih =>
    intro bc fi
    cases hop : e.label.on_position i with
    | none =>
        simp [boundary_interior_scan, hop, ih, List.countP_cons, List.any_cons]
    | some p =>
        cases p <;>
          simp [boundary_interior_scan, hop, ih, List.countP_cons, List.any_cons] <;>
          omega

theorem side_position_scan_spec (i : Fin 2) (side : Direction) :
    ∀ (l : List EdgeEnd) (acc r : Option CoordPos),
      side_position_scan i side l acc = .ok r →
      r = (if ∃ e ∈ l, e.label.is_area = true
              ∧ e.label.position i side = .ok (some .Inside)
          then some .Inside
          else if ∃ e ∈ l, e.label.is_area = true
              ∧ e.label.position i side = .ok (some .Outside)
          then some .Outside
          else acc) := by
  intro l
  induction l with
  | nil =>
    intro acc r h
    simp only [side_position_scan, Except.ok.injEq] at h
    simp [h.symm]
  | cons e rest ih =>
    intro acc r h
    by_cases harea : e.label.is_area = true
    · cases hpos : e.label.position i side with
      | error msg =>
          rw [side_position_scan] at h
          simp [harea, hpos] at h
      | ok po =>
        cases po with
        | none =>
            rw [side_position_scan] at h
            simp only [harea, if_true, hpos] at h
            rw [ih _ _ h]
            simp [harea, hpos]
        | some p =>
          cases p with
          | Inside =>
              rw [side_position_scan] at h
              simp only [harea, if_true, hpos, Except.ok.injEq] at h
              subst h
              simp [harea, hpos]
          | OnBoundary =>
              rw [side_position_scan] at h
              simp only [harea, if_true, hpos] at h
              rw [ih _ _ h]
              simp [harea, hpos]
          | Outside =>
              rw [side_position_scan] at h
              simp only [harea, if_true, hpos] at h
              rw [ih _ _ h]
              by_cases hI : ∃ e' ∈ rest, e'.label.is_area = true
                  ∧ e'.label.position i side = .ok (some .Inside)
              · rw [if_pos hI, if_pos]
                obtain ⟨e', he', hp'⟩ := hI
                exact ⟨e', List.mem_cons.mpr (Or.inr he'), hp'⟩
              · have hIcons : ¬∃ e' ∈ e :: rest, e'.label.is_area = true
                    ∧ e'.label.position i side = .ok (some .Inside) := by
                  rintro ⟨e', he', harea', hp'⟩
                  rcases List.mem_cons.mp he' with rfl | he'
                  · rw [hpos] at hp'
                    cases hp'
                  · exact hI ⟨e', he', harea', hp'⟩
                have hOcons : ∃ e' ∈ e :: rest, e'.label.is_area = true
                    ∧ e'.label.position i side = .ok (some .Outside) :=
                  ⟨e, List.mem_cons.mpr (Or.inl rfl), harea, hpos⟩
                rw [if_neg hI, if_neg hIcons, if_pos hOcons]
                by_cases hO : ∃ e' ∈ rest, e'.label.is_area = true
                    ∧ e'.label.position i side = .ok (some .Outside)
                · rw [if_pos hO]
                · rw [if_neg hO]
    · rw [side_position_scan] at h
      simp only [harea, if_false, Bool.false_eq_true] at h
      rw [ih _ _ h]
      have hnot : ∀ P : EdgeEnd → Prop,
          (∃ e' ∈ e :: rest, e'.label.is_area = true ∧ P e')
            ↔ (∃ e' ∈ rest, e'.label.is_area = true ∧ P e') := by
        intro P
        constructor
        · rintro ⟨e', he', harea', hp'⟩
          rcases List.mem_cons.mp he' with rfl | he'
          · exact absurd harea' harea
          · exact ⟨e', he', harea', hp'⟩
        · rintro ⟨e', he', harea', hp'⟩
          exact ⟨e', List.mem_cons.mpr (Or.inr he'), harea', hp'⟩
      simp only [hnot fun e' => e'.label.position i side = .ok (some .Inside),
        hnot fun e' => e'.label.position i side = .ok (some .Outside)]

theorem compute_label_on_cases (ees : List EdgeEnd) (lbl : Label) (i : Fin 2) :
    compute_label_on ees lbl i = lbl
      ∨ ∃ p, compute_label_on ees lbl i = lbl.set_on_position i p := by
  unfold compute_label_on
  dsimp only
  split
  · next p _ => exact Or.inr ⟨p, rfl⟩
  · exact Or.inl rfl

theorem compute_label_on_on_other (ees : List EdgeEnd) (lbl : Label) (i j : Fin 2)
    (hij : i ≠ j) :
    (compute_label_on ees lbl i).on_position j = lbl.on_position j := by
  rcases compute_label_on_cases ees lbl i with h | ⟨p, h⟩ <;> rw [h]
  exact Label.on_position_set_on_other lbl i j p hij

theorem compute_label_on_position_side (ees : List EdgeEnd) (lbl : Label) (i : Fin 2)
    (k : Fin 2) (d : Direction) (hd : d ≠ .On) :
    (compute_label_on ees lbl i).position k d = lbl.position k d := by
  rcases compute_label_on_cases ees lbl i with h | ⟨p, h⟩ <;> rw [h]
  exact Label.position_set_on lbl i p k d hd

theorem compute_label_on_on_self (ees : List EdgeEnd) (lbl : Label) (i : Fin 2) :
    (compute_label_on ees lbl i).on_position i =
      (if 0 < ees.countP (fun e => decide (e.label.on_position i = some .OnBoundary))
        then some (determine_boundary
          (ees.countP fun e => decide (e.label.on_position i = some .OnBoundary)))
        else if ees.any (fun e => decide (e.label.on_position i = some .Inside))
        then some .Inside
        else lbl.on_position i) := by
  unfold compute_label_on
  rw [boundary_interior_scan_spec]
  dsimp only
  simp only [Nat.zero_add, Bool.false_or]
  by_cases hbc : 0 < ees.countP fun e => decide (e.label.on_position i = some .OnBoundary)
  · rw [if_pos hbc, if_pos hbc, Label.on_position_set_on_self]
  · rw [if_neg hbc, if_neg hbc]
    cases hany : ees.any fun e => decide (e.label.on_position i = some .Inside)
    · simp only [ite_false, Bool.false_eq_true, if_false]
    · simp only [ite_true, if_true, Label.on_position_set_on_self]

theorem compute_label_side_cases (ees : List EdgeEnd) (lbl : Label) (i : Fin 2)
    (side : Direction) {lbl' : Label}
    (h : compute_label_side ees lbl i side = .ok lbl') :
    ∃ r, side_position_scan i side ees none = .ok r
      ∧ ((r = none ∧ lbl' = lbl)
        ∨ ∃ p, r = some p ∧ lbl.set_position i side p = .ok lbl') := by
  unfold compute_label_side at h
  cases hs : side_position_scan i side ees none with
  | error msg =>
      rw [hs] at h
      cases h
  | ok r =>
    rw [hs] at h
    simp only [Bind.bind, Except.bind] at h
    refine ⟨r, rfl, ?_⟩
    cases r with
    | none =>
        left
        refine ⟨rfl, ?_⟩
        simp only [pure, Except.pure, Except.ok.injEq] at h
        exact h.symm
    | some p => exact Or.inr ⟨p, rfl, h⟩

theorem compute_label_side_on_position (ees : List EdgeEnd) (lbl : Label) (i : Fin 2)
    (side : Direction) {lbl' : Label} (hside : side ≠ .On)
    (h : compute_label_side ees lbl i side = .ok lbl') (k : Fin 2) :
    lbl'.on_position k = lbl.on_position k := by
  obtain ⟨r, _, hcase⟩ := compute_label_side_cases ees lbl i side h
  rcases hcase with ⟨_, rfl⟩ | ⟨p, _, hset⟩
  · rfl
  · exact Label.set_position_ok_on_position hside hset k

theorem compute_label_side_position_other (ees : List EdgeEnd) (lbl : Label)
    (i : Fin 2) (side : Direction) {lbl' : Label}
    (h : compute_label_side ees lbl i side = .ok lbl') (k : Fin 2) (d : Direction)
    (hne : ¬(i = k ∧ side = d)) :
    lbl'.position k d = lbl.position k d := by
  obtain ⟨r, _, hcase⟩ := compute_label_side_cases ees lbl i side h
  rcases hcase with ⟨_, rfl⟩ | ⟨p, _, hset⟩
  · rfl
  · exact Label.set_position_ok_position_other hset k d hne

theorem compute_label_side_position_self (ees : List EdgeEnd) (lbl : Label)
    (i : Fin 2) (side : Direction) {lbl' : Label}
    (h : compute_label_side ees lbl i side = .ok lbl') :
    ∃ r, side_position_scan i side ees none = .ok r
      ∧ lbl'.position i side
          = (match r with
            | some p => .ok (some p)
            | none => lbl.position i side) := by
  obtain ⟨r, hs, hcase⟩ := compute_label_side_cases ees lbl i side h
  rcases hcase with ⟨rfl, rfl⟩ | ⟨p, rfl, hset⟩
  · exact ⟨none, hs, rfl⟩
  · exact ⟨some p, hs, Label.set_position_ok_position_self hset⟩

theorem into_labeled_eq (b : EdgeEndBundle) {lb : LabeledEdgeEndBundle}
    (h : b.into_labeled = .ok lb) :
    ∃ l1 l2 : Label,
      into_labeled_step b.edge_ends (b.edge_ends.any fun e => e.label.is_area)
          (if (b.edge_ends.any fun e => e.label.is_area) then Label.empty_area
            else Label.empty_line_or_point) 0 = .ok l1
      ∧ into_labeled_step b.edge_ends (b.edge_ends.any fun e => e.label.is_area)
          l1 1 = .ok l2
      ∧ lb.label = l2 ∧ lb.edge_end_bundle = b := by
  unfold EdgeEndBundle.into_labeled at h
  dsimp only at h
  cases h1 : into_labeled_step b.edge_ends (b.edge_ends.any fun e => e.label.is_area)
      (if (b.edge_ends.any fun e => e.label.is_area) then Label.empty_area
        else Label.empty_line_or_point) 0 with
  | error msg =>
      rw [h1] at h
      simp only [Bind.bind, Except.bind, reduceCtorEq] at h
  | ok l1 =>
    rw [h1] at h
    simp only [Bind.bind, Except.bind] at h
    cases h2 : into_labeled_step b.edge_ends (b.edge_ends.any fun e => e.label.is_area)
        l1 1 with
    | error msg =>
        rw [h2] at h
        simp only [reduceCtorEq] at h
    | ok l2 =>
      rw [h2] at h
      simp only [pure, Except.pure, Except.ok.injEq] at h
      exact ⟨l1, l2, rfl, h2, by rw [← h], by rw [← h]⟩

theorem into_labeled_step_on_position (ees : List EdgeEnd) (A : Bool) (lbl : Label)
    (i : Fin 2) {lbl' : Label} (h : into_labeled_step ees A lbl i = .ok lbl')
    (k : Fin 2) :
    lbl'.on_position k = (compute_label_on ees lbl i).on_position k := by
  unfold into_labeled_step at h
  cases A with
  | false =>
      simp only [Bool.false_eq_true, if_false, pure, Except.pure, Except.ok.injEq] at h
      rw [← h]
  | true =>
    simp only [if_true, Bind.bind, Except.bind] at h
    cases hL : compute_label_side ees (compute_label_on ees lbl i) i .Left with
    | error msg =>
        rw [hL] at h
        cases h
    | ok lm =>
      rw [hL] at h
      rw [compute_label_side_on_position ees lm i .Right (by intro hd; cases hd) h k,
        compute_label_side_on_position ees (compute_label_on ees lbl i) i .Left
          (by intro hd; cases hd) hL k]

theorem into_labeled_step_position_other (ees : List EdgeEnd) (A : Bool) (lbl : Label)
    (i : Fin 2) {lbl' : Label} (h : into_labeled_step ees A lbl i = .ok lbl')
    (k : Fin 2) (d : Direction) (hd : d ≠ .On) (hik : i ≠ k) :
    lbl'.position k d = lbl.position k d := by
  unfold into_labeled_step at h
  cases A with
  | false =>
      simp only [Bool.false_eq_true, if_false, pure, Except.pure, Except.ok.injEq] at h
      rw [← h]
      exact compute_label_on_position_side ees lbl i k d hd
  | true =>
    simp only [if_true, Bind.bind, Except.bind] at h
    cases hL : compute_label_side ees (compute_label_on ees lbl i) i .Left with
    | error msg =>
        rw [hL] at h
        cases h
    | ok lm =>
      rw [hL] at h
      rw [compute_label_side_position_other ees lm i .Right h k d
          (fun hc => hik hc.1),
        compute_label_side_position_other ees (compute_label_on ees lbl i) i .Left hL k d
          (fun hc => hik hc.1)]
      exact compute_label_on_position_side ees lbl i k d hd

theorem into_labeled_step_position_self (ees : List EdgeEnd) (lbl : Label)
    (i : Fin 2) {lbl' : Label} (h : into_labeled_step ees true lbl i = .ok lbl')
    (side : Direction) (hside : side = .Left ∨ side = .Right) :
    ∃ r, side_position_scan i side ees none = .ok r
      ∧ lbl'.position i side
          = (match r with
            | some p => .ok (some p)
            | none => lbl.position i side) := by
  unfold into_labeled_step at h
  simp only [if_true, Bind.bind, Except.bind] at h
  cases hL : compute_label_side ees (compute_label_on ees lbl i) i .Left with
  | error msg =>
      rw [hL] at h
      cases h
  | ok lm =>
    rw [hL] at h
    rcases hside with rfl | rfl
    · obtain ⟨r, hs, hval⟩ :=
        compute_label_side_position_self ees (compute_label_on ees lbl i) i .Left hL
      refine ⟨r, hs, ?_⟩
      rw [compute_label_side_position_other ees lm i .Right h i .Left
          (fun hc => by cases hc.2), hval]
      cases r with
      | some p => rfl
      | none => exact compute_label_on_position_side ees lbl i i .Left (by intro hd; cases hd)
    · obtain ⟨r, hs, hval⟩ := compute_label_side_position_self ees lm i .Right h
      refine ⟨r, hs, ?_⟩
      rw [hval]
      cases r with
      | some p => rfl
      | none =>
          rw [compute_label_side_position_other ees (compute_label_on ees lbl i) i .Left
              hL i .Right (fun hc => by cases hc.2)]
          exact compute_label_on_position_side ees lbl i i .Right (by intro hd; cases hd)

/-- C4: the On position synthesized by `into_labeled` for geometry `i` is: the
Mod-2 value of the member boundary count when that count is positive
(`OnBoundary` iff odd, else `Inside`); otherwise `Inside` when some member's On
position is `Inside`; otherwise left unknown. -/
theorem into_labeled_on_spec (b : EdgeEndBundle) (lb : LabeledEdgeEndBundle)
    (h : b.into_labeled = .ok lb) (i : Fin 2) :
    lb.label.on_position i =
      (if 0 < b.edge_ends.countP
          (fun e => decide (e.label.on_position i = some .OnBoundary))
        then some (if (b.edge_ends.countP fun e =>
            decide (e.label.on_position i = some .OnBoundary)) % 2 = 1
          then CoordPos.OnBoundary else CoordPos.Inside)
        else if b.edge_ends.any fun e => decide (e.label.on_position i = some .Inside)
        then some CoordPos.Inside
        else none) := by
  obtain ⟨l1, l2, h1, h2, hlb, -⟩ := into_labeled_eq b h
  have hinit : (if (b.edge_ends.any fun e => e.label.is_area) then Label.empty_area
      else Label.empty_line_or_point).on_position i = none := by
    cases (b.edge_ends.any fun e => e.label.is_area) <;> rfl
  have hi : i = 0 ∨ i = 1 := by omega
  rcases hi with rfl | rfl
  · rw [hlb, into_labeled_step_on_position _ _ _ _ h2 0,
      compute_label_on_on_other _ _ 1 0 (by decide),
      into_labeled_step_on_position _ _ _ _ h1 0,
      compute_label_on_on_self, hinit]
    simp [determine_boundary]
  · rw [hlb, into_labeled_step_on_position _ _ _ _ h2 1,
      compute_label_on_on_self]
    have hl1 : l1.on_position 1 = none := by
      rw [into_labeled_step_on_position _ _ _ _ h1 1,
        compute_label_on_on_other _ _ 0 1 (by decide), hinit]
    rw [hl1]
    simp [determine_boundary]

/-- C5: when some member of the bundle is area-typed, the side position
synthesized by `into_labeled` for geometry `i` and side `Left`/`Right` is:
`Inside` if any area-typed member has `Inside` there (interior primacy), else
`Outside` if any area-typed member has `Outside` there, else left unknown. -/
theorem into_labeled_side_spec (b : EdgeEndBundle) (lb : LabeledEdgeEndBundle)
    (h : b.into_labeled = .ok lb)
    (hA : (b.edge_ends.any fun e => e.label.is_area) = true)
    (i : Fin 2) (side : Direction) (hside : side = .Left ∨ side = .Right) :
    lb.label.position i side =
      .ok (if ∃ e ∈ b.edge_ends, e.label.is_area = true
            ∧ e.label.position i side = .ok (some .Inside) then some CoordPos.Inside
        else if ∃ e ∈ b.edge_ends, e.label.is_area = true
            ∧ e.label.position i side = .ok (some .Outside) then some CoordPos.Outside
        else none) := by
  obtain ⟨l1, l2, h1, h2, hlb, -⟩ := into_labeled_eq b h
  rw [hA] at h1 h2
  simp only [eq_self_iff_true, ite_true] at h1
  have hsd : side ≠ .On := by rcases hside with rfl | rfl <;> (intro hc; cases hc)
  have hinit : Label.empty_area.position i side = .ok none := by
    rcases hside with rfl | rfl <;> rfl
  have hi : i = 0 ∨ i = 1 := by omega
  rcases hi with rfl | rfl
  · rw [hlb, into_labeled_step_position_other _ _ _ _ h2 0 side hsd (by decide)]
    obtain ⟨r, hs, hval⟩ := into_labeled_step_position_self _ _ _ h1 side hside
    rw [hval, side_position_scan_spec _ _ _ _ _ hs, hinit]
    by_cases hI : ∃ e ∈ b.edge_ends, e.label.is_area = true
        ∧ e.label.position 0 side = .ok (some .Inside) <;>
      by_cases hO : ∃ e ∈ b.edge_ends, e.label.is_area = true
          ∧ e.label.position 0 side = .ok (some .Outside) <;>
      simp [hI, hO]
  · obtain ⟨r, hs, hval⟩ := into_labeled_step_position_self _ _ _ h2 side hside
    have hl1 : l1.position 1 side = .ok none := by
      rw [into_labeled_step_position_other _ _ _ _ h1 1 side hsd (by decide), hinit]
    rw [hlb, hval, side_position_scan_spec _ _ _ _ _ hs, hl1]
    by_cases hI : ∃ e ∈ b.edge_ends, e.label.is_area = true
        ∧ e.label.position 1 side = .ok (some .Inside) <;>
      by_cases hO : ∃ e ∈ b.edge_ends, e.label.is_area = true
          ∧ e.label.position 1 side = .ok (some .Outside) <;>
      simp [hI, hO]

/-- A concrete one-member area-typed bundle: its member is labeled
`OnBoundary / Inside / Outside` for both geometries. -/
def exampleBundle : EdgeEndBundle :=
  ⟨⟨0, 0⟩,
   [⟨⟨fun _ => .Area (some .OnBoundary) (some .Inside) (some .Outside)⟩,
     ⟨⟨0, 0⟩, ⟨1, 1⟩, ⟨1, 1⟩, some .NE⟩⟩]⟩

/-- The labeled bundle `into_labeled` produces for `exampleBundle`. -/
def exampleLabeledBundle : LabeledEdgeEndBundle :=
  ⟨⟨fun _ => .Area (some .OnBoundary) (some .Inside) (some .Outside)⟩, exampleBundle⟩

theorem into_labeled_on_spec_witness :
    exampleLabeledBundle.label.on_position 0
      = (if 0 < exampleBundle.edge_ends.countP
            (fun e => decide (e.label.on_position 0 = some .OnBoundary))
        then some (if (exampleBundle.edge_ends.countP fun e =>
            decide (e.label.on_position 0 = some .OnBoundary)) % 2 = 1
          then CoordPos.OnBoundary else CoordPos.Inside)
        else if exampleBundle.edge_ends.any fun e =>
            decide (e.label.on_position 0 = some .Inside)
        then some CoordPos.Inside
        else none) :=
  into_labeled_on_spec exampleBundle exampleLabeledBundle (by decide) 0

theorem into_labeled_side_spec_witness :
    exampleLabeledBundle.label.position 0 .Left
      = .ok (if ∃ e ∈ exampleBundle.edge_ends, e.label.is_area = true
            ∧ e.label.position 0 .Left = .ok (some .Inside) then some CoordPos.Inside
        else if ∃ e ∈ exampleBundle.edge_ends, e.label.is_area = true
            ∧ e.label.position 0 .Left = .ok (some .Outside) then some CoordPos.Outside
        else none) :=
  into_labeled_side_spec exampleBundle exampleLabeledBundle (by decide) (by decide)
    0 .Left (Or.inl rfl)

end Geo
